import Mathlib

/-!
# Verification of the from-scratch feed-forward neural-network notebook

This file is a shallow embedding of the numerical core of the notebook
`2-Instructor-deep-learning-from-scratch-pytorch.ipynb`: the model
initializer, the activation/loss primitives, forward propagation,
backward propagation, and the parameter updater.

Modelling conventions:

* A NumPy 2-D array is a `Mat`: a pair of dimensions together with an
  entry function `ℕ → ℕ → ℚ` (entries outside the stated dimensions are
  irrelevant junk).  Scalars are rationals; the notebook's logistic
  function `g(x) = 1/(1+exp(-x))` is a transcendental real function, so
  the scalar map is abstracted as a parameter `gs : ℚ → ℚ` throughout —
  none of the verified properties depend on its numeric values, and
  `g_prime` keeps its literal definition `g(x) * (1 - g(x))` in terms of
  `gs`.

* Fallible operations return `Option`: a NumPy shape error
  (`ValueError` from `@`/`np.dot`, or a negative dimension passed to
  `np.random.randn`), a Python `KeyError` (a dictionary read or `del`
  of an absent key) and an `IndexError` (out-of-range list index) all
  become `none`.

* The Python dict `model` is the structure `Model`; the four transient
  keys that forward/backward add and `update` deletes are `Option`
  fields (`none` = key absent).

* `np.random.randn` draws are modelled by an explicit entry source
  `rnd : ℕ → ℕ → ℕ → ℚ` (call index → row → column), injected as a
  parameter; only the shapes of the draws matter to the claims.

Python list-slice translations used below (verified against CPython):
`l[-1:0:-1] = (l.drop 1).reverse`, `l[-2::-1] = l.dropLast.reverse`,
`l[-3::-1] = (l.take (l.length - 2)).reverse`, and `l[-k]` is
`l[l.length - k]` provided `k ≤ l.length` (otherwise `IndexError`).
-/

namespace DFS

/-- A NumPy 2-D array: `r × c` matrix of rationals, entries given by a
total function (values outside the range are junk). -/
structure Mat where
  r : ℕ
  c : ℕ
  entry : ℕ → ℕ → ℚ

/-- NumPy 2-D matrix multiplication (`@` / `np.dot`): requires the inner
dimensions to agree, otherwise `ValueError`. -/
def np_matmul (A B : Mat) : Option Mat :=
  if A.c = B.r then
    some ⟨A.r, B.c, fun i j => ∑ k ∈ Finset.range A.c, A.entry i k * B.entry k j⟩
  else none

/-- NumPy broadcast of one dimension pair: equal, or one of them is 1. -/
def bcDim (a b : ℕ) : Option ℕ :=
  if a = b then some a else if a = 1 then some b else if b = 1 then some a else none

/-- Index into a broadcast source dimension: a length-1 axis is read at 0. -/
def bidx (d i : ℕ) : ℕ := if d = 1 then 0 else i

/-- NumPy element-wise binary operation with 2-D broadcasting (used for
`+`, `-` and `*` on arrays); `ValueError` when shapes are incompatible. -/
def bcOp (f : ℚ → ℚ → ℚ) (A B : Mat) : Option Mat :=
  match bcDim A.r B.r, bcDim A.c B.c with
  | some r, some c =>
      some ⟨r, c, fun i j =>
        f (A.entry (bidx A.r i) (bidx A.c j)) (B.entry (bidx B.r i) (bidx B.c j))⟩
  | _, _ => none

/-- Element-wise application of a scalar function (vectorized NumPy ufunc). -/
def mapMat (f : ℚ → ℚ) (A : Mat) : Mat := ⟨A.r, A.c, fun i j => f (A.entry i j)⟩

/-- NumPy transpose `A.T` of a 2-D array. -/
def np_transpose (A : Mat) : Mat := ⟨A.c, A.r, fun i j => A.entry j i⟩

/-- `np.ones((r, c))`. -/
def np_ones (r c : ℕ) : Mat := ⟨r, c, fun _ _ => 1⟩

/-- Multiplication of an array by a scalar (`eta * dW`), a broadcastful
NumPy scalar-array product. -/
def smulMat (s : ℚ) (A : Mat) : Mat := mapMat (fun x => s * x) A

/-- `g`: the logistic activation applied elementwise.  The scalar
logistic itself is the abstract parameter `gs` (see the file header). -/
def g (gs : ℚ → ℚ) (A : Mat) : Mat := mapMat gs A

/-- `g_prime`: the derivative of the logistic, `g(x)*(1-g(x))` elementwise,
exactly as the notebook computes it from `g`. -/
def g_prime (gs : ℚ → ℚ) (A : Mat) : Mat := mapMat (fun x => gs x * (1 - gs x)) A

/-- `loss_prime(yhat, y) = yhat - y` (NumPy broadcasting subtraction). -/
def loss_prime (yhat y : Mat) : Option Mat := bcOp (· - ·) yhat y

/-- The notebook's `model` dictionary.  `nlayers`, `weights`, `biases`
are always present after initialization; the four transient keys are
`Option` fields (`none` = key absent from the dict). -/
structure Model where
  nlayers : ℤ
  weights : List Mat
  biases : List Mat
  activations : Option (List Mat)
  w_inputs : Option (List Mat)
  grad_weights : Option (List Mat)
  grad_biases : Option (List Mat)

/-- `np.random.randn(d1, d0)` where `d1`, `d0` are Python ints: fails
(`ValueError`) when a dimension is negative, otherwise allocates a fresh
`d1 × d0` array whose entries come from the injected source. -/
def np_random_randn (vals : ℕ → ℕ → ℚ) (d1 d0 : ℤ) : Option Mat :=
  if 0 ≤ d1 ∧ 0 ≤ d0 then some ⟨d1.toNat, d0.toNat, vals⟩ else none

/-- The body of `initialize_model`'s `for l in range(L)` loop, iterated
over the list of loop indices: each iteration draws
`W = np.random.randn(dimensions[l+1], dimensions[l])` and
`b = np.random.randn(dimensions[l+1], 1)` and appends them. -/
def initFold (rnd : ℕ → ℕ → ℕ → ℚ) (dimensions : List ℤ) :
    List ℕ → Option (List Mat × List Mat)
  | [] => some ([], [])
  | l :: rest => do
      let dl1 ← dimensions[l + 1]?
      let dl ← dimensions[l]?
      let W ← np_random_randn (rnd (2 * l)) dl1 dl
      let b ← np_random_randn (rnd (2 * l + 1)) dl1 1
      let (ws, bs) ← initFold rnd dimensions rest
      some (W :: ws, b :: bs)

/-- `initialize_model(dimensions)`: `L = len(dimensions) - 1` (a Python
int, which is negative for an empty list), loop `for l in range(L)`
building the weight and bias lists, and return
`dict(weights=..., biases=..., nlayers=L)`. -/
def initialize_model (rnd : ℕ → ℕ → ℕ → ℚ) (dimensions : List ℤ) : Option Model := do
  let L : ℤ := (dimensions.length : ℤ) - 1
  let (ws, bs) ← initFold rnd dimensions (List.range L.toNat)
  some ⟨L, ws, bs, none, none, none, none⟩

/-- The `for W, b in zip(model['weights'], model['biases'])` loop of
`forward`, starting from activation `a`: returns the final activation,
the accumulated `zs` and the accumulated activations *after* `a`
(in loop order). -/
def fwdLoop (gs : ℚ → ℚ) : List (Mat × Mat) → Mat → Option (Mat × List Mat × List Mat)
  | [], a => some (a, [], [])
  | (W, b) :: rest, a => do
      let wa ← np_matmul W a
      let z ← bcOp (· + ·) wa b
      let a2 := g gs z
      let (aL, zs, as2) ← fwdLoop gs rest a2
      some (aL, z :: zs, a2 :: as2)

/-- `forward(x, model)`: runs the layer loop and stores
`model['activations'] = [a0, ..., aL]`, `model['w_inputs'] = [z1, ..., zL]`,
returning `(aL, model)`. -/
def forward (gs : ℚ → ℚ) (x : Mat) (m : Model) : Option (Mat × Model) := do
  let (aL, zs, as2) ← fwdLoop gs (m.weights.zip m.biases) x
  some (aL, { m with activations := some (x :: as2), w_inputs := some zs })

/-- Python negative indexing `l[-k]` (for `k ≥ 1`): the element at
`l.length - k`, `IndexError` when the list is shorter than `k`. -/
def pyGetNeg (l : List Mat) (k : ℕ) : Option Mat :=
  if k ≤ l.length then l[l.length - k]? else none

/-- `l[-1:0:-1]`: the list reversed, with the head (index 0) excluded. -/
def sliceLast2One (l : List Mat) : List Mat := (l.drop 1).reverse

/-- `l[-2::-1]`: the list without its last element, reversed. -/
def sliceSndLast2Zero (l : List Mat) : List Mat := l.dropLast.reverse

/-- `l[-3::-1]`: the first `l.length - 2` elements, reversed. -/
def sliceThdLast2Zero (l : List Mat) : List Mat := (l.take (l.length - 2)).reverse

/-- The `for W, z, a in loop_iterates` loop of `backward`, given the
incoming `delta`; returns the gradients in iteration order (output
layer towards input layer). -/
def bwdLoop (gs : ℚ → ℚ) (Nbatch : ℕ) :
    Mat → List (Mat × Mat × Mat) → Option (List Mat × List Mat)
  | _, [] => some ([], [])
  | delta, (W, z, a) :: rest => do
      let wd ← np_matmul (np_transpose W) delta
      let delta2 ← bcOp (· * ·) wd (g_prime gs z)
      let gb ← np_matmul delta2 (np_ones Nbatch 1)
      let gw ← np_matmul delta2 (np_transpose a)
      let (gws, gbs) ← bwdLoop gs Nbatch delta2 rest
      some (gw :: gws, gb :: gbs)

/-- `backward(y, model)`: output-layer error, gradient of the last layer,
then the backward loop over
`zip(model['weights'][-1:0:-1], model['w_inputs'][-2::-1], model['activations'][-3::-1])`,
finally storing the reversed gradient lists on the model. -/
def backward (gs : ℚ → ℚ) (y : Mat) (m : Model) : Option Model := do
  let Nbatch := y.c
  let acts ← m.activations
  let yhat ← pyGetNeg acts 1
  let zs ← m.w_inputs
  let z ← pyGetNeg zs 1
  let a ← pyGetNeg acts 2
  let e ← loss_prime yhat y
  let delta ← bcOp (· * ·) e (g_prime gs z)
  let gb ← np_matmul delta (np_ones Nbatch 1)
  let gw ← np_matmul delta (np_transpose a)
  let triples := (sliceLast2One m.weights).zip
      ((sliceSndLast2Zero zs).zip (sliceThdLast2Zero acts))
  let (gws, gbs) ← bwdLoop gs Nbatch delta triples
  some { m with grad_weights := some ((gw :: gws).reverse),
                grad_biases := some ((gb :: gbs).reverse) }

/-- Python `del model[key]`: fails with `KeyError` when the key is
absent, otherwise succeeds (the caller then clears the field). -/
def pyDel (o : Option (List Mat)) : Option Unit := o.map fun _ => ()

/-- The parameter-update loop of `update`, zipping weights, biases and
gradients and forming `W - (eta * dW)`, `b - (eta * db)`. -/
def updLoop (eta : ℚ) : List (Mat × Mat × Mat × Mat) → Option (List Mat × List Mat)
  | [] => some ([], [])
  | (W, b, dW, db) :: rest => do
      let W2 ← bcOp (· - ·) W (smulMat eta dW)
      let b2 ← bcOp (· - ·) b (smulMat eta db)
      let (ws, bs) ← updLoop eta rest
      some (W2 :: ws, b2 :: bs)

/-- `update(eta, model)`, exactly as written in the notebook: first
`for key in ['activations', 'w_inputs', 'grad_weights', 'grad_biases']: del model[key]`,
then the zip over `model['weights']`, `model['biases']`,
`model['grad_weights']`, `model['grad_biases']` — the last two of which
were just deleted. -/
def update (eta : ℚ) (m : Model) : Option Model := do
  let _ ← pyDel m.activations
  let m1 := { m with activations := none }
  let _ ← pyDel m1.w_inputs
  let m2 := { m1 with w_inputs := none }
  let _ ← pyDel m2.grad_weights
  let m3 := { m2 with grad_weights := none }
  let _ ← pyDel m3.grad_biases
  let m4 := { m3 with grad_biases := none }
  let gws ← m4.grad_weights
  let gbs ← m4.grad_biases
  let (nws, nbs) ← updLoop eta (m4.weights.zip (m4.biases.zip (gws.zip gbs)))
  some { m4 with weights := nws, biases := nbs }

/-- One backward error-propagation step, shared by the reference
recurrences below: `δ' = Wᵀ · δ ⊙ activationDerivative(z)`. -/
def stepD (gs : ℚ → ℚ) (W z d : Mat) : Option Mat := do
  let wd ← np_matmul (np_transpose W) d
  bcOp (· * ·) wd (g_prime gs z)

/-- The chain of `delta` values produced while folding over a triple
list `(W, z, a)`: `dseq delta ts 0 = delta` and
`dseq delta ts (k+1)` applies `stepD` with the `k`-th triple.  Used to
characterize `bwdLoop`. -/
def dseq (gs : ℚ → ℚ) (delta : Mat) (ts : List (Mat × Mat × Mat)) : ℕ → Option Mat
  | 0 => some delta
  | k + 1 => do
      let d ← dseq gs delta ts k
      let t ← ts[k]?
      stepD gs t.1 t.2.1 d

/-- The specification's backward-error recurrence, written from the
spec's words (`δL = lossGradient(aL, y) ⊙ activationDerivative(zL)` and
`δℓ₋₁ = (Wℓ)ᵗ · δℓ ⊙ activationDerivative(zℓ₋₁)`), indexed top-down:
`specDelta k` is `δ_{L-k}` for the 1-based layer numbering, over the
stored `weights`, `w_inputs` and `activations` lists. -/
def specDelta (gs : ℚ → ℚ) (y : Mat) (ws zs acts : List Mat) : ℕ → Option Mat
  | 0 => do
      let aL ← acts.getLast?
      let zL ← zs.getLast?
      let e ← loss_prime aL y
      bcOp (· * ·) e (g_prime gs zL)
  | k + 1 => do
      let d ← specDelta gs y ws zs acts k
      let W ← ws[ws.length - 1 - k]?
      let z ← zs[ws.length - 2 - k]?
      stepD gs W z d

/-! ## Concrete fixtures

Small concrete inputs used by witnesses, counterexamples and code-bug
evaluations: a 1-layer network with `dimensions = [1, 1]`. -/

/-- A concrete stand-in for the abstract scalar activation. -/
def gs0 : ℚ → ℚ := id

/-- A concrete random source (shapes are all that matter). -/
def rnd0 : ℕ → ℕ → ℕ → ℚ := fun _ _ _ => 0

/-- A concrete `1 × 1` matrix. -/
def mat1 (q : ℚ) : Mat := ⟨1, 1, fun _ _ => q⟩

/-- A freshly initialized 1-layer model (`dimensions = [1, 1]`). -/
def m0 : Model := ⟨1, [mat1 1], [mat1 0], none, none, none, none⟩

/-- Concrete input batch (`1 × 1`). -/
def xC : Mat := mat1 0

/-- Concrete target batch (`1 × 1`). -/
def yC : Mat := mat1 0

/-- A concrete model carrying all four transient keys, as left behind by
`forward` followed by `backward`. -/
def mT : Model :=
  ⟨1, [mat1 1], [mat1 0], some [mat1 0, mat1 (1/2)], some [mat1 0],
   some [mat1 0], some [mat1 0]⟩

/-- Concrete post-forward activation list for a 2-layer model. -/
def actsC : List Mat := [mat1 0, mat1 0, mat1 0]

/-- Concrete post-forward weighted-input list for a 2-layer model. -/
def zsC : List Mat := [mat1 0, mat1 0]

/-- A concrete 2-layer model (all widths 1) carrying the post-forward
transients. -/
def m4C : Model :=
  ⟨2, [mat1 1, mat1 1], [mat1 0, mat1 0], some actsC, some zsC, none, none⟩

/-! ## Shape lemmas for the primitives -/

theorem np_matmul_eq (A B : Mat) (h : A.c = B.r) :
    np_matmul A B =
      some ⟨A.r, B.c, fun i j => ∑ k ∈ Finset.range A.c, A.entry i k * B.entry k j⟩ := by
  simp [np_matmul, h]

theorem np_matmul_shape (A B : Mat) (h : A.c = B.r) :
    ∃ C, np_matmul A B = some C ∧ C.r = A.r ∧ C.c = B.c :=
  ⟨_, np_matmul_eq A B h, rfl, rfl⟩

theorem np_matmul_none (A B : Mat) (h : A.c ≠ B.r) : np_matmul A B = none := by
  simp [np_matmul, h]

theorem bcDim_self (a : ℕ) : bcDim a a = some a := by simp [bcDim]

theorem bcDim_right_one (a : ℕ) : bcDim a 1 = some a := by
  by_cases h : a = 1 <;> simp [bcDim, h]

theorem bcOp_shape (f : ℚ → ℚ → ℚ) (A B : Mat) {r c : ℕ}
    (hr : bcDim A.r B.r = some r) (hc : bcDim A.c B.c = some c) :
    ∃ C, bcOp f A B = some C ∧ C.r = r ∧ C.c = c := by
  refine ⟨⟨r, c, fun i j =>
    f (A.entry (bidx A.r i) (bidx A.c j)) (B.entry (bidx B.r i) (bidx B.c j))⟩,
    ?_, rfl, rfl⟩
  simp only [bcOp, hr, hc]

theorem mapMat_r (f : ℚ → ℚ) (A : Mat) : (mapMat f A).r = A.r := rfl

theorem mapMat_c (f : ℚ → ℚ) (A : Mat) : (mapMat f A).c = A.c := rfl

/-! ## Characterization of the forward loop

The hypotheses index the layer shapes by an abstract width function
`e : ℕ → ℕ` (`e j` = row count entering step `j`) and a batch size `N`;
the conclusion states success, the lengths of the recorded lists, and
the per-layer recurrence `z_j = W_j · a_j + b_j`, `a_{j+1} = g(z_j)`. -/

theorem fwdLoop_ok (gs : ℚ → ℚ) :
    ∀ (ps : List (Mat × Mat)) (a : Mat) (e : ℕ → ℕ) (N : ℕ),
      a.r = e 0 → a.c = N →
      (∀ j, j < ps.length → ∃ W b, ps[j]? = some (W, b) ∧
        W.r = e (j + 1) ∧ W.c = e j ∧ b.r = e (j + 1) ∧ b.c = 1) →
      ∃ aL zs as2, fwdLoop gs ps a = some (aL, zs, as2) ∧
        zs.length = ps.length ∧ as2.length = ps.length ∧
        (a :: as2).getLast? = some aL ∧ aL.r = e ps.length ∧ aL.c = N ∧
        (∀ j, j < ps.length → ∃ W b aj wa z,
          ps[j]? = some (W, b) ∧ (a :: as2)[j]? = some aj ∧
          np_matmul W aj = some wa ∧ bcOp (· + ·) wa b = some z ∧
          zs[j]? = some z ∧ (a :: as2)[j + 1]? = some (g gs z) ∧
          z.r = e (j + 1) ∧ z.c = N) := by
  intro ps
  induction ps with
  | nil =>
      intro a e N h1 h2 _
      exact ⟨a, [], [], rfl, rfl, rfl, rfl, h1, h2, fun j hj => absurd hj (by simp)⟩
  | cons p rest ih =>
      intro a e N h1 h2 hshapes
      obtain ⟨W, b, hp0, hWr, hWc, hbr, hbc⟩ := hshapes 0 (by simp)
      have hp : p = (W, b) := by simpa using hp0
      subst hp
      obtain ⟨wa, hwa, hwar, hwac⟩ := np_matmul_shape W a (by rw [hWc, h1])
      obtain ⟨z, hz, hzr, hzc⟩ := bcOp_shape (· + ·) wa b
        (by rw [hwar, hbr, hWr]; exact bcDim_self _)
        (by rw [hwac, hbc]; exact bcDim_right_one _)
      obtain ⟨aL, zs, as2, hloop, hzl, hal, hlast, hLr, hLc, hidx⟩ :=
        ih (g gs z) (fun j => e (j + 1)) N (by simpa [g, mapMat] using hzr)
          (by simp only [g, mapMat_c]; rw [hzc, h2])
          (fun j hj => by
            obtain ⟨W', b', hj0, q1, q2, q3, q4⟩ := hshapes (j + 1) (by simpa using hj)
            exact ⟨W', b', by simpa using hj0, q1, q2, q3, q4⟩)
      refine ⟨aL, z :: zs, g gs z :: as2, ?_, by simp [hzl], by simp [hal], ?_,
        by simpa using hLr, hLc, ?_⟩
      · simp [fwdLoop, hwa, hz, hloop]
      · rw [List.getLast?_cons_cons]; exact hlast
      · intro j hj
        match j with
        | 0 =>
            exact ⟨W, b, a, wa, z, by simp, by simp, hwa, hz, by simp, by simp,
              hzr, by rw [hzc, h2]⟩
        | j' + 1 =>
            obtain ⟨W', b', aj, wa', z', q1, q2, q3, q4, q5, q6, q7, q8⟩ :=
              hidx j' (by simpa using hj)
            exact ⟨W', b', aj, wa', z', by simpa using q1, by simpa using q2,
              q3, q4, by simpa using q5, by simpa using q6, q7, q8⟩

/-! ## Claims about `update` (C1, C2, C3) -/

/-- **C2.** For every model that contains the four transient keys
`'activations'`, `'w_inputs'`, `'grad_weights'`, `'grad_biases'` and
every learning rate, `update` deletes all four keys first and only then
reads `model['grad_weights']` / `model['grad_biases']`, so the call
raises a missing-key error (`none` here) and no updated model — in
particular no modified `weights`/`biases` — is ever produced. -/
theorem update_raises_keyerror_c2 (eta : ℚ) (m : Model)
    (h1 : m.activations.isSome = true) (h2 : m.w_inputs.isSome = true)
    (h3 : m.grad_weights.isSome = true) (h4 : m.grad_biases.isSome = true) :
    update eta m = none := by
  obtain ⟨a1, ha1⟩ := Option.isSome_iff_exists.mp h1
  obtain ⟨a2, ha2⟩ := Option.isSome_iff_exists.mp h2
  obtain ⟨a3, ha3⟩ := Option.isSome_iff_exists.mp h3
  obtain ⟨a4, ha4⟩ := Option.isSome_iff_exists.mp h4
  simp [update, pyDel, ha1, ha2, ha3, ha4]

/-- Witness for C2 at a concrete post-backward model. -/
theorem update_raises_keyerror_c2_witness :
    (mT.activations.isSome = true ∧ mT.w_inputs.isSome = true ∧
     mT.grad_weights.isSome = true ∧ mT.grad_biases.isSome = true) ∧
    update (1/2) mT = none :=
  ⟨⟨rfl, rfl, rfl, rfl⟩, update_raises_keyerror_c2 (1/2) mT rfl rfl rfl rfl⟩

/-- **C1** (code bug, evaluated at the failing input).  The claim says
`update(learningRate, model)` applied after a backward pass returns the
gradient-stepped model with the transient fields removed; the code
instead deletes `'grad_weights'`/`'grad_biases'` before the update loop
reads them, so the call fails (KeyError) on every such model.  Here the
full pipeline `forward`; `backward`; `update (1/2)` on the concrete
1-layer model evaluates to `none`. -/
theorem update_after_backward_raises_c1 :
    (do
      let p ← forward gs0 xC m0
      let mb ← backward gs0 yC p.2
      update (1/2) mb) = none := rfl

/-- **C3** (code bug, evaluated at the failing input).  The claimed
round-trip `forward` → `backward` → `update` with `learningRate = 0`
never returns a model at all: `update` raises a missing-key error, so no
model with unchanged weights/biases is produced. -/
theorem roundtrip_eta0_raises_c3 :
    (do
      let p ← forward gs0 xC m0
      let mb ← backward gs0 yC p.2
      update 0 mb) = none := rfl

/-! ## Claims about `initialize_model` (C6, C7) -/

/-- **C6 counterexample.** The claim says `initialize_model` fails with
`InvalidArgument` whenever `dimensions` has fewer than 2 entries; but
`initialize_model [3]` performs no validation and returns normally, a
model with `nlayers = 0` and empty weight/bias lists. -/
theorem init_short_list_succeeds_c6_cex :
    initialize_model rnd0 [3] = some ⟨0, [], [], none, none, none, none⟩ := rfl

/-- When every loop index in `ls` can read both of its `dimensions`
entries and both are nonnegative, `initFold` succeeds and returns, at
each position, the two freshly drawn arrays of the documented shapes. -/
theorem initFold_ok (rnd : ℕ → ℕ → ℕ → ℚ) (dimensions : List ℤ) (ls : List ℕ)
    (h : ∀ l ∈ ls, ∃ dl dl1, dimensions[l]? = some dl ∧
        dimensions[l + 1]? = some dl1 ∧ 0 ≤ dl ∧ 0 ≤ dl1) :
    ∃ ws bs, initFold rnd dimensions ls = some (ws, bs) ∧
      ws.length = ls.length ∧ bs.length = ls.length ∧
      ∀ j, j < ls.length → ∃ l dl dl1, ls[j]? = some l ∧
        dimensions[l]? = some dl ∧ dimensions[l + 1]? = some dl1 ∧
        ws[j]? = some ⟨dl1.toNat, dl.toNat, rnd (2 * l)⟩ ∧
        bs[j]? = some ⟨dl1.toNat, 1, rnd (2 * l + 1)⟩ := by
  induction ls with
  | nil =>
      exact ⟨[], [], rfl, rfl, rfl, fun j hj => absurd hj (by simp)⟩
  | cons l rest ih =>
      obtain ⟨dl, dl1, hdl, hdl1, h0, h1⟩ := h l (List.mem_cons_self _ _)
      obtain ⟨ws, bs, hfold, hwl, hbl, hidx⟩ :=
        ih (fun l' hl' => h l' (List.mem_cons_of_mem _ hl'))
      refine ⟨⟨dl1.toNat, dl.toNat, rnd (2 * l)⟩ :: ws,
              ⟨dl1.toNat, 1, rnd (2 * l + 1)⟩ :: bs, ?_,
              by simp [hwl], by simp [hbl], ?_⟩
      · simp [initFold, hdl, hdl1, np_random_randn, h0, h1, hfold]
      · intro j hj
        match j with
        | 0 => exact ⟨l, dl, dl1, by simp, hdl, hdl1, by simp, by simp⟩
        | j' + 1 =>
            obtain ⟨l', dl', dl1', h1', h2', h3', h4', h5'⟩ :=
              hidx j' (by simpa using hj)
            exact ⟨l', dl', dl1', by simpa using h1', h2', h3',
                   by simpa using h4', by simpa using h5'⟩

/-- If `initFold` succeeds then every loop index could read both of its
`dimensions` entries and both were nonnegative. -/
theorem initFold_some_nonneg (rnd : ℕ → ℕ → ℕ → ℚ) (dimensions : List ℤ) :
    ∀ (ls : List ℕ) (p : List Mat × List Mat),
      initFold rnd dimensions ls = some p →
      ∀ l ∈ ls, ∃ dl dl1, dimensions[l]? = some dl ∧
        dimensions[l + 1]? = some dl1 ∧ 0 ≤ dl ∧ 0 ≤ dl1 := by
  intro ls
  induction ls with
  | nil => intro p _ l hl; exact absurd hl (by simp)
  | cons l0 rest ih =>
      intro p hsome l hl
      rw [initFold] at hsome
      obtain ⟨dl1, hdl1, hsome⟩ := Option.bind_eq_some.mp hsome
      obtain ⟨dl, hdl, hsome⟩ := Option.bind_eq_some.mp hsome
      obtain ⟨W, hW, hsome⟩ := Option.bind_eq_some.mp hsome
      obtain ⟨b, hb, hsome⟩ := Option.bind_eq_some.mp hsome
      obtain ⟨q, hq, -⟩ := Option.bind_eq_some.mp hsome
      have hWc : 0 ≤ dl1 ∧ 0 ≤ dl := by
        by_contra hc
        rw [np_random_randn, if_neg hc] at hW
        exact absurd hW (by simp)
      rcases List.mem_cons.mp hl with rfl | hmem
      · exact ⟨dl, dl1, hdl, hdl1, hWc.2, hWc.1⟩
      · exact ih q hq l hmem

/-- Success characterization of `initialize_model`: with all entries of
`dimensions` nonnegative it succeeds, with `nlayers = len - 1`,
weight/bias lists of length `len - 1`, no transient fields, and the
documented per-layer shapes. -/
theorem initialize_model_ok (rnd : ℕ → ℕ → ℕ → ℚ) (dimensions : List ℤ)
    (hnn : ∀ d ∈ dimensions, 0 ≤ d) :
    ∃ m, initialize_model rnd dimensions = some m ∧
      m.nlayers = (dimensions.length : ℤ) - 1 ∧
      m.weights.length = dimensions.length - 1 ∧
      m.biases.length = dimensions.length - 1 ∧
      m.activations = none ∧ m.w_inputs = none ∧
      m.grad_weights = none ∧ m.grad_biases = none ∧
      ∀ l, l < dimensions.length - 1 → ∃ W b dl dl1,
        m.weights[l]? = some W ∧ m.biases[l]? = some b ∧
        dimensions[l]? = some dl ∧ dimensions[l + 1]? = some dl1 ∧
        W.r = dl1.toNat ∧ W.c = dl.toNat ∧ b.r = dl1.toNat ∧ b.c = 1 := by
  have htn : ((dimensions.length : ℤ) - 1).toNat = dimensions.length - 1 := by
    omega
  obtain ⟨ws, bs, hfold, hwl, hbl, hidx⟩ :=
    initFold_ok rnd dimensions (List.range (((dimensions.length : ℤ) - 1).toNat))
      (by
        intro l hl
        rw [List.mem_range, htn] at hl
        have hl1 : l < dimensions.length := by omega
        have hl2 : l + 1 < dimensions.length := by omega
        exact ⟨dimensions[l], dimensions[l + 1],
          List.getElem?_eq_getElem hl1, List.getElem?_eq_getElem hl2,
          hnn _ (dimensions.getElem_mem hl1), hnn _ (dimensions.getElem_mem hl2)⟩)
  refine ⟨⟨(dimensions.length : ℤ) - 1, ws, bs, none, none, none, none⟩, ?_,
    rfl, by simpa [htn] using hwl, by simpa [htn] using hbl,
    rfl, rfl, rfl, rfl, ?_⟩
  · rw [htn] at hfold
    simp [initialize_model, hfold]
  · intro l hlt
    have hj : l < (List.range (((dimensions.length : ℤ) - 1).toNat)).length := by
      simpa [htn] using hlt
    obtain ⟨l', dl, dl1, hls, h2', h3', h4', h5'⟩ := hidx l hj
    have hl' : l' = l := by
      have := List.getElem?_range (by simpa using hj :
        l < ((dimensions.length : ℤ) - 1).toNat)
      rw [this] at hls
      exact (Option.some_inj.mp hls).symm
    subst hl'
    exact ⟨_, _, dl, dl1, h4', h5', h2', h3', rfl, rfl, rfl, rfl⟩

/-- **C6 amended.** `initialize_model` performs no validation: it fails
iff `dimensions` has at least 2 entries and contains a negative entry
(NumPy rejects a negative dimension passed to `randn`); fewer than 2
entries always succeed (with `nlayers = len − 1` and empty lists), and
zero entries are accepted. -/
theorem initialize_model_none_iff_c6 (rnd : ℕ → ℕ → ℕ → ℚ)
    (dimensions : List ℤ) :
    initialize_model rnd dimensions = none ↔
      2 ≤ dimensions.length ∧ ∃ d ∈ dimensions, d < 0 := by
  constructor
  · intro hnone
    by_contra hcon
    rcases not_and_or.mp hcon with hlen | hneg
    · have hlen' : dimensions.length < 2 := by omega
      have htn : ((dimensions.length : ℤ) - 1).toNat = 0 := by omega
      rw [initialize_model] at hnone
      rw [htn] at hnone
      simp [initFold] at hnone
    · have hnn : ∀ d ∈ dimensions, 0 ≤ d := by
        intro d hd
        by_contra hd0
        exact hneg ⟨d, hd, by omega⟩
      obtain ⟨m, hm, -⟩ := initialize_model_ok rnd dimensions hnn
      rw [hm] at hnone
      exact absurd hnone (by simp)
  · rintro ⟨hlen, d, hd, hdneg⟩
    cases hres : initialize_model rnd dimensions with
    | none => rfl
    | some m =>
        exfalso
        rw [initialize_model] at hres
        obtain ⟨p, hp, -⟩ := Option.bind_eq_some.mp hres
        obtain ⟨i, hi, hdi⟩ := List.mem_iff_getElem.mp hd
        have htn : ((dimensions.length : ℤ) - 1).toNat = dimensions.length - 1 := by
          omega
        have hall := initFold_some_nonneg rnd dimensions _ p hp
        by_cases hil : i < dimensions.length - 1
        · obtain ⟨dl, dl1, hdl, -, h0, -⟩ :=
            hall i (by rw [List.mem_range, htn]; omega)
          rw [List.getElem?_eq_getElem hi] at hdl
          have : dl = d := by
            have := Option.some_inj.mp hdl
            rw [← this, hdi]
          omega
        · have hieq : i = dimensions.length - 1 := by omega
          obtain ⟨dl, dl1, -, hdl1, -, h1⟩ :=
            hall (dimensions.length - 2) (by rw [List.mem_range, htn]; omega)
          have hidx2 : dimensions.length - 2 + 1 = i := by omega
          rw [hidx2, List.getElem?_eq_getElem hi] at hdl1
          have : dl1 = d := by
            have := Option.some_inj.mp hdl1
            rw [← this, hdi]
          omega

/-- **C7.** For every `dimensions` of length ≥ 2 with all positive
entries, `initialize_model` returns a model with
`nlayers = len(dimensions) − 1` and, for every layer, a weight matrix of
shape `(dimensions[ℓ], dimensions[ℓ−1])` and a bias vector of shape
`(dimensions[ℓ], 1)` (0-based: weight `l` has shape
`(dimensions[l+1], dimensions[l])`). -/
theorem initialize_model_shapes_c7 (rnd : ℕ → ℕ → ℕ → ℚ)
    (dimensions : List ℤ) (hlen : 2 ≤ dimensions.length)
    (hpos : ∀ d ∈ dimensions, 0 < d) :
    ∃ m, initialize_model rnd dimensions = some m ∧
      m.nlayers = (dimensions.length : ℤ) - 1 ∧
      m.weights.length = dimensions.length - 1 ∧
      m.biases.length = dimensions.length - 1 ∧
      ∀ l, l < dimensions.length - 1 → ∃ W b dl dl1,
        m.weights[l]? = some W ∧ m.biases[l]? = some b ∧
        dimensions[l]? = some dl ∧ dimensions[l + 1]? = some dl1 ∧
        W.r = dl1.toNat ∧ W.c = dl.toNat ∧ b.r = dl1.toNat ∧ b.c = 1 := by
  obtain ⟨m, hm, h1, h2, h3, -, -, -, -, h4⟩ :=
    initialize_model_ok rnd dimensions (fun d hd => le_of_lt (hpos d hd))
  exact ⟨m, hm, h1, h2, h3, h4⟩

/-! ## Claims about `forward` (C5, C9) and `backward` precondition (C8) -/

/-- `initialize_model` never stores transient fields. -/
theorem initialize_model_transients_none (rnd : ℕ → ℕ → ℕ → ℚ)
    (dimensions : List ℤ) (m : Model)
    (h : initialize_model rnd dimensions = some m) :
    m.activations = none ∧ m.w_inputs = none ∧
    m.grad_weights = none ∧ m.grad_biases = none := by
  rw [initialize_model] at h
  obtain ⟨p, -, hm⟩ := Option.bind_eq_some.mp h
  obtain rfl := Option.some_inj.mp hm
  exact ⟨rfl, rfl, rfl, rfl⟩

/-- **C5.** For every model produced by the initializer and every input
`x` whose row count equals `dimensions[0]` (any batch width),
`forward(x, model)` succeeds; the recorded `activations` are
`a₀ = x, …, a_L` (`L+1` entries), the recorded `w_inputs` are
`z₁ … z_L` (`L` entries), each layer satisfies
`z_ℓ = W_ℓ·a_{ℓ-1} + b_ℓ` (NumPy broadcast of the bias over the batch)
and `a_ℓ = g(z_ℓ)`, and the returned output is `a_L` of shape
`(dimensions[L], batchSize)`. -/
theorem forward_ok_c5 (gs : ℚ → ℚ) (rnd : ℕ → ℕ → ℕ → ℚ)
    (dimensions : List ℤ) (m : Model) (x : Mat)
    (hinit : initialize_model rnd dimensions = some m)
    (hlen : 2 ≤ dimensions.length)
    (hpos : ∀ d ∈ dimensions, 0 < d)
    (hx : dimensions[0]? = some (x.r : ℤ)) :
    ∃ out m', forward gs x m = some (out, m') ∧
      ∃ acts zs, m'.activations = some acts ∧ m'.w_inputs = some zs ∧
        acts.length = dimensions.length ∧ zs.length = dimensions.length - 1 ∧
        acts[0]? = some x ∧ acts.getLast? = some out ∧
        dimensions.getLast?.map Int.toNat = some out.r ∧ out.c = x.c ∧
        m'.weights = m.weights ∧ m'.biases = m.biases ∧ m'.nlayers = m.nlayers ∧
        ∀ i, i < dimensions.length - 1 →
          ∃ W b ai wa z, m.weights[i]? = some W ∧ m.biases[i]? = some b ∧
            acts[i]? = some ai ∧ np_matmul W ai = some wa ∧
            bcOp (· + ·) wa b = some z ∧
            zs[i]? = some z ∧ acts[i + 1]? = some (g gs z) := by
  obtain ⟨m2, hm2, hnl, hwlen, hblen, -, -, -, -, hshapes⟩ :=
    initialize_model_ok rnd dimensions (fun d hd => le_of_lt (hpos d hd))
  rw [hinit] at hm2
  obtain rfl := Option.some_inj.mp hm2
  set e : ℕ → ℕ := fun j => (dimensions[j]?.getD 0).toNat with he
  have hzlen : (m.weights.zip m.biases).length = dimensions.length - 1 := by
    simp [List.length_zip, hwlen, hblen]
  have hps : ∀ j, j < (m.weights.zip m.biases).length →
      ∃ W b, (m.weights.zip m.biases)[j]? = some (W, b) ∧
        W.r = e (j + 1) ∧ W.c = e j ∧ b.r = e (j + 1) ∧ b.c = 1 := by
    intro j hj
    rw [hzlen] at hj
    obtain ⟨W, b, dl, dl1, hW, hb, hdl, hdl1, q1, q2, q3, q4⟩ := hshapes j hj
    refine ⟨W, b, List.getElem?_zip_eq_some.mpr ⟨hW, hb⟩, ?_, ?_, ?_, q4⟩
    · rw [q1, he]; simp [hdl1]
    · rw [q2, he]; simp [hdl]
    · rw [q3, he]; simp [hdl1]
  have hx0 : x.r = e 0 := by rw [he]; simp [hx]
  obtain ⟨aL, zs, as2, hloop, hzl, hal, hlast, hLr, hLc, hidx⟩ :=
    fwdLoop_ok gs (m.weights.zip m.biases) x e x.c hx0 rfl hps
  have hfwd : forward gs x m =
      some (aL, { m with activations := some (x :: as2), w_inputs := some zs }) := by
    simp [forward, hloop]
  have hle : dimensions.length - 1 < dimensions.length := by omega
  have hout : dimensions.getLast?.map Int.toNat = some aL.r := by
    rw [List.getLast?_eq_getElem?, List.getElem?_eq_getElem hle, Option.map_some']
    rw [hLr, hzlen, he]
    simp [List.getElem?_eq_getElem hle]
  refine ⟨aL, _, hfwd, x :: as2, zs, rfl, rfl,
    by rw [List.length_cons, hal, hzlen]; omega,
    by rw [hzl, hzlen], by simp, hlast, hout, hLc, rfl, rfl, rfl, ?_⟩
  intro i hi
  obtain ⟨W, b, ai, wa, z, q1, q2, q3, q4, q5, q6, -, -⟩ :=
    hidx i (by rw [hzlen]; exact hi)
  obtain ⟨qW, qb⟩ := List.getElem?_zip_eq_some.mp q1
  exact ⟨W, b, ai, wa, z, qW, qb, q2, q3, q4, q5, q6⟩

/-- Witness for C5: `dimensions = [1, 1]`, `x` a `1 × 1` batch. -/
theorem forward_ok_c5_witness :
    (initialize_model rnd0 [1, 1] =
        some ⟨1, [⟨1, 1, rnd0 0⟩], [⟨1, 1, rnd0 1⟩], none, none, none, none⟩ ∧
      2 ≤ ([1, 1] : List ℤ).length ∧ (∀ d ∈ ([1, 1] : List ℤ), 0 < d) ∧
      ([1, 1] : List ℤ)[0]? = some (xC.r : ℤ)) ∧
    (∃ out m', forward gs0 xC
        ⟨1, [⟨1, 1, rnd0 0⟩], [⟨1, 1, rnd0 1⟩], none, none, none, none⟩ =
          some (out, m') ∧
      ∃ acts zs, m'.activations = some acts ∧ m'.w_inputs = some zs ∧
        acts.length = ([1, 1] : List ℤ).length ∧
        zs.length = ([1, 1] : List ℤ).length - 1 ∧
        acts[0]? = some xC ∧ acts.getLast? = some out ∧
        ([1, 1] : List ℤ).getLast?.map Int.toNat = some out.r ∧ out.c = xC.c ∧
        m'.weights = (⟨1, [⟨1, 1, rnd0 0⟩], [⟨1, 1, rnd0 1⟩], none, none, none,
          none⟩ : Model).weights ∧
        m'.biases = (⟨1, [⟨1, 1, rnd0 0⟩], [⟨1, 1, rnd0 1⟩], none, none, none,
          none⟩ : Model).biases ∧
        m'.nlayers = (⟨1, [⟨1, 1, rnd0 0⟩], [⟨1, 1, rnd0 1⟩], none, none, none,
          none⟩ : Model).nlayers ∧
        ∀ i, i < ([1, 1] : List ℤ).length - 1 →
          ∃ W b ai wa z,
            (⟨1, [⟨1, 1, rnd0 0⟩], [⟨1, 1, rnd0 1⟩], none, none, none,
              none⟩ : Model).weights[i]? = some W ∧
            (⟨1, [⟨1, 1, rnd0 0⟩], [⟨1, 1, rnd0 1⟩], none, none, none,
              none⟩ : Model).biases[i]? = some b ∧
            acts[i]? = some ai ∧ np_matmul W ai = some wa ∧
            bcOp (· + ·) wa b = some z ∧
            zs[i]? = some z ∧ acts[i + 1]? = some (g gs0 z)) :=
  ⟨⟨rfl, by decide, by decide, rfl⟩,
   forward_ok_c5 gs0 rnd0 [1, 1] _ xC rfl (by decide) (by decide) rfl⟩

/-- **C9.** For every initialized model and every input whose row count
differs from `dimensions[0]`, `forward` fails: the first layer's
`W₁ @ x` raises a NumPy shape error, and no result is returned. -/
theorem forward_mismatch_c9 (gs : ℚ → ℚ) (rnd : ℕ → ℕ → ℕ → ℚ)
    (dimensions : List ℤ) (m : Model) (x : Mat) (d0 : ℤ)
    (hinit : initialize_model rnd dimensions = some m)
    (hlen : 2 ≤ dimensions.length)
    (hpos : ∀ d ∈ dimensions, 0 < d)
    (hd0 : dimensions[0]? = some d0)
    (hx : x.r ≠ d0.toNat) :
    forward gs x m = none := by
  obtain ⟨m2, hm2, -, hwlen, hblen, -, -, -, -, hshapes⟩ :=
    initialize_model_ok rnd dimensions (fun d hd => le_of_lt (hpos d hd))
  rw [hinit] at hm2
  obtain rfl := Option.some_inj.mp hm2
  obtain ⟨W, b, dl, dl1, hW, hb, hdl, -, -, hWc, -, -⟩ :=
    hshapes 0 (by omega)
  have hdl' : dl = d0 := by rw [hdl] at hd0; exact Option.some_inj.mp hd0
  subst hdl'
  cases hwl : m.weights with
  | nil => rw [hwl] at hW; simp at hW
  | cons W0 tw =>
      cases hbl : m.biases with
      | nil => rw [hbl] at hb; simp at hb
      | cons b0 tb =>
          have hW0 : W0 = W := by rw [hwl] at hW; simpa using hW
          subst hW0
          have hnone : np_matmul W0 x = none :=
            np_matmul_none W0 x (by rw [hWc]; exact fun h => hx h.symm)
          simp [forward, hwl, hbl, fwdLoop, hnone]

/-- Witness for C9: `dimensions = [2, 2]` but `x` has a single row. -/
theorem forward_mismatch_c9_witness :
    (initialize_model rnd0 [2, 2] =
        some ⟨1, [⟨2, 2, rnd0 0⟩], [⟨2, 1, rnd0 1⟩], none, none, none, none⟩ ∧
      2 ≤ ([2, 2] : List ℤ).length ∧ (∀ d ∈ ([2, 2] : List ℤ), 0 < d) ∧
      ([2, 2] : List ℤ)[0]? = some 2 ∧ xC.r ≠ (2 : ℤ).toNat) ∧
    forward gs0 xC
      ⟨1, [⟨2, 2, rnd0 0⟩], [⟨2, 1, rnd0 1⟩], none, none, none, none⟩ = none :=
  ⟨⟨rfl, by decide, by decide, rfl, by decide⟩,
   forward_mismatch_c9 gs0 rnd0 [2, 2] _ xC 2 rfl (by decide) (by decide) rfl
     (by decide)⟩

/-- **C8.** `backward` on a freshly initialized model (no prior
`forward`) fails: the read of the absent `'activations'` key raises, and
nothing is returned. -/
theorem backward_fresh_fails_c8 (gs : ℚ → ℚ) (rnd : ℕ → ℕ → ℕ → ℚ)
    (dimensions : List ℤ) (m : Model) (y : Mat)
    (hinit : initialize_model rnd dimensions = some m) :
    backward gs y m = none := by
  obtain ⟨hact, -, -, -⟩ :=
    initialize_model_transients_none rnd dimensions m hinit
  simp [backward, hact]

/-- Witness for C8. -/
theorem backward_fresh_fails_c8_witness :
    initialize_model rnd0 [1, 1] =
      some ⟨1, [⟨1, 1, rnd0 0⟩], [⟨1, 1, rnd0 1⟩], none, none, none, none⟩ ∧
    backward gs0 yC
      ⟨1, [⟨1, 1, rnd0 0⟩], [⟨1, 1, rnd0 1⟩], none, none, none, none⟩ = none :=
  ⟨rfl, backward_fresh_fails_c8 gs0 rnd0 [1, 1] _ yC rfl⟩

/-- Witness for C7 at `dimensions = [2, 3]`. -/
theorem initialize_model_shapes_c7_witness :
    (2 ≤ ([2, 3] : List ℤ).length ∧ ∀ d ∈ ([2, 3] : List ℤ), 0 < d) ∧
    ∃ m, initialize_model rnd0 [2, 3] = some m ∧
      m.nlayers = (([2, 3] : List ℤ).length : ℤ) - 1 ∧
      m.weights.length = ([2, 3] : List ℤ).length - 1 ∧
      m.biases.length = ([2, 3] : List ℤ).length - 1 ∧
      ∀ l, l < ([2, 3] : List ℤ).length - 1 → ∃ W b dl dl1,
        m.weights[l]? = some W ∧ m.biases[l]? = some b ∧
        ([2, 3] : List ℤ)[l]? = some dl ∧ ([2, 3] : List ℤ)[l + 1]? = some dl1 ∧
        W.r = dl1.toNat ∧ W.c = dl.toNat ∧ b.r = dl1.toNat ∧ b.c = 1 :=
  ⟨⟨by decide, by decide⟩,
   initialize_model_shapes_c7 rnd0 [2, 3] (by decide) (by decide)⟩

/-! ## Characterization of the backward loop -/

theorem dseq_zero (gs : ℚ → ℚ) (delta : Mat) (ts : List (Mat × Mat × Mat)) :
    dseq gs delta ts 0 = some delta := rfl

theorem dseq_succ (gs : ℚ → ℚ) (delta : Mat) (ts : List (Mat × Mat × Mat))
    (k : ℕ) :
    dseq gs delta ts (k + 1) =
      (dseq gs delta ts k).bind fun d =>
        (ts[k]?).bind fun t => stepD gs t.1 t.2.1 d := rfl

/-- Peeling the head triple off a `dseq` chain. -/
theorem dseq_cons (gs : ℚ → ℚ) (delta : Mat) (t : Mat × Mat × Mat)
    (ts : List (Mat × Mat × Mat)) :
    ∀ k, dseq gs delta (t :: ts) (k + 1) =
      (stepD gs t.1 t.2.1 delta).bind fun d1 => dseq gs d1 ts k := by
  intro k
  induction k with
  | zero =>
      rw [dseq_succ]
      simp [dseq_zero]
  | succ k ih =>
      rw [dseq_succ, ih]
      simp only [List.getElem?_cons_succ]
      cases stepD gs t.1 t.2.1 delta with
      | none => simp
      | some d1 => simp only [Option.some_bind]; rw [dseq_succ]

/-- Success/shape characterization of `bwdLoop`: widths are indexed by
`e` (`e j` = row count of the delta entering step `j`); the conclusion
records that each produced gradient pair comes from the `dseq` delta
chain by `grad_b = δ · ones(N,1)`, `grad_W = δ · aᵗ`. -/
theorem bwdLoop_ok (gs : ℚ → ℚ) (N : ℕ) :
    ∀ (ts : List (Mat × Mat × Mat)) (delta : Mat) (e : ℕ → ℕ),
      delta.r = e 0 → delta.c = N →
      (∀ j, j < ts.length → ∃ W z a, ts[j]? = some (W, z, a) ∧
        W.r = e j ∧ W.c = e (j + 1) ∧ z.r = e (j + 1) ∧ z.c = N ∧ a.c = N) →
      ∃ gws gbs, bwdLoop gs N delta ts = some (gws, gbs) ∧
        gws.length = ts.length ∧ gbs.length = ts.length ∧
        ∀ j, j < ts.length → ∃ d W z a, ts[j]? = some (W, z, a) ∧
          dseq gs delta ts (j + 1) = some d ∧ d.r = e (j + 1) ∧ d.c = N ∧
          gbs[j]? = np_matmul d (np_ones N 1) ∧
          gws[j]? = np_matmul d (np_transpose a) := by
  intro ts
  induction ts with
  | nil =>
      intro delta e h1 h2 _
      exact ⟨[], [], rfl, rfl, rfl, fun j hj => absurd hj (by simp)⟩
  | cons t rest ih =>
      intro delta e h1 h2 hshapes
      obtain ⟨W, z, a, ht0, hWr, hWc, hzr, hzc, hac⟩ := hshapes 0 (by simp)
      have ht : t = (W, z, a) := by simpa using ht0
      subst ht
      obtain ⟨wd, hwd, hwdr, hwdc⟩ := np_matmul_shape (np_transpose W) delta
        (by show W.r = delta.r; rw [hWr, h1])
      obtain ⟨d2, hd2, hd2r, hd2c⟩ := bcOp_shape (· * ·) wd (g_prime gs z)
        (by show bcDim wd.r z.r = some (e (0 + 1));
            rw [hwdr, hzr]; show bcDim W.c (e (0 + 1)) = _; rw [hWc];
            exact bcDim_self _)
        (by show bcDim wd.c z.c = some N; rw [hwdc, h2, hzc]; exact bcDim_self _)
      obtain ⟨gb, hgb, -, -⟩ := np_matmul_shape d2 (np_ones N 1)
        (by show d2.c = N; exact hd2c)
      obtain ⟨gw, hgw, -, -⟩ := np_matmul_shape d2 (np_transpose a)
        (by show d2.c = a.c; rw [hd2c, hac])
      have hstep : stepD gs W z delta = some d2 := by
        simp [stepD, hwd, hd2]
      obtain ⟨gws', gbs', hloop, hgwl, hgbl, hidx⟩ :=
        ih d2 (fun j => e (j + 1)) hd2r hd2c
          (fun j hj => by
            obtain ⟨W', z', a', hj0, q1, q2, q3, q4, q5⟩ :=
              hshapes (j + 1) (by simpa using hj)
            exact ⟨W', z', a', by simpa using hj0, q1, q2, q3, q4, q5⟩)
      refine ⟨gw :: gws', gb :: gbs', ?_, by simp [hgwl], by simp [hgbl], ?_⟩
      · simp [bwdLoop, hwd, hd2, hgb, hgw, hloop]
      · intro j hj
        match j with
        | 0 =>
            refine ⟨d2, W, z, a, by simp, ?_, hd2r, hd2c, by simp [hgb],
              by simp [hgw]⟩
            rw [dseq_cons, hstep]
            simp [dseq_zero]
        | j' + 1 =>
            obtain ⟨d, W', z', a', q0, q1, q2, q3, q4, q5⟩ :=
              hidx j' (by simpa using hj)
            refine ⟨d, W', z', a', by simpa using q0, ?_, q2, q3,
              by simpa using q4, by simpa using q5⟩
            rw [dseq_cons, hstep]
            simpa using q1

/-- Whenever `backward` succeeds, its result is the input model with
only the two gradient fields replaced. -/
theorem backward_eq_some (gs : ℚ → ℚ) (y : Mat) (m m' : Model)
    (h : backward gs y m = some m') :
    ∃ gws gbs, m' = { m with grad_weights := some gws,
                             grad_biases := some gbs } := by
  rw [backward] at h
  obtain ⟨acts, -, h⟩ := Option.bind_eq_some.mp h
  obtain ⟨yhat, -, h⟩ := Option.bind_eq_some.mp h
  obtain ⟨zs, -, h⟩ := Option.bind_eq_some.mp h
  obtain ⟨z, -, h⟩ := Option.bind_eq_some.mp h
  obtain ⟨a, -, h⟩ := Option.bind_eq_some.mp h
  obtain ⟨e, -, h⟩ := Option.bind_eq_some.mp h
  obtain ⟨delta, -, h⟩ := Option.bind_eq_some.mp h
  obtain ⟨gb, -, h⟩ := Option.bind_eq_some.mp h
  obtain ⟨gw, -, h⟩ := Option.bind_eq_some.mp h
  obtain ⟨p, -, h⟩ := Option.bind_eq_some.mp h
  obtain ⟨gws', gbs'⟩ := p
  exact ⟨(gw :: gws').reverse, (gb :: gbs').reverse,
    (Option.some_inj.mp h).symm⟩

/-- **C10.** `backward` never touches `weights`, `biases`, `nlayers`,
`activations` or `w_inputs`: whenever it returns a model, those five
fields are exactly the input's, and only `grad_weights`/`grad_biases`
are added or replaced. -/
theorem backward_frame_c10 (gs : ℚ → ℚ) (y : Mat) (m m' : Model)
    (h : backward gs y m = some m') :
    m'.weights = m.weights ∧ m'.biases = m.biases ∧
    m'.nlayers = m.nlayers ∧ m'.activations = m.activations ∧
    m'.w_inputs = m.w_inputs := by
  obtain ⟨gws, gbs, rfl⟩ := backward_eq_some gs y m m' h
  exact ⟨rfl, rfl, rfl, rfl, rfl⟩

/-- Witness for C10 at a concrete post-forward model. -/
theorem backward_frame_c10_witness :
    (backward gs0 yC mT).map Model.weights = some mT.weights ∧
    (backward gs0 yC mT).map Model.biases = some mT.biases ∧
    (backward gs0 yC mT).map Model.nlayers = some mT.nlayers ∧
    (backward gs0 yC mT).map Model.activations = some mT.activations ∧
    (backward gs0 yC mT).map Model.w_inputs = some mT.w_inputs := by
  obtain ⟨m', hm'⟩ : ∃ m', backward gs0 yC mT = some m' := ⟨_, rfl⟩
  obtain ⟨h1, h2, h3, h4, h5⟩ := backward_frame_c10 gs0 yC mT m' hm'
  rw [hm']
  simp [h1, h2, h3, h4, h5]

/-- **C4.**  For every model holding activations `a₀..a_L` and weighted
inputs `z₁..z_L` from a prior forward call (stated here as: the lists
are present with the lengths and shapes `forward` guarantees, widths
indexed by `dims`) and every target `y` of matching shape, `backward`
succeeds and stores `grad_weights`/`grad_biases` with exactly `L`
entries aligned index-for-index with `weights`/`biases`, where the
entry for (0-based) layer `i` satisfies
`grad_biases[i] = δ_{i+1} · ones(batchSize, 1)` and
`grad_weights[i] = δ_{i+1} · (a_i)ᵗ`, with the `δ`s given by the spec's
recurrence `specDelta` (`δ_L = lossGradient(a_L, y) ⊙ g'(z_L)`,
`δ_{ℓ-1} = (W_ℓ)ᵗ δ_ℓ ⊙ g'(z_{ℓ-1})`). -/
theorem backward_grads_c4 (gs : ℚ → ℚ) (y : Mat) (m : Model)
    (acts zs : List Mat) (dims : ℕ → ℕ)
    (hL : 1 ≤ m.weights.length)
    (hact : m.activations = some acts)
    (hwin : m.w_inputs = some zs)
    (halen : acts.length = m.weights.length + 1)
    (hzlen : zs.length = m.weights.length)
    (hws : ∀ i, i < m.weights.length → ∃ W, m.weights[i]? = some W ∧
      W.r = dims (i + 1) ∧ W.c = dims i)
    (hzs : ∀ i, i < m.weights.length → ∃ z, zs[i]? = some z ∧
      z.r = dims (i + 1) ∧ z.c = y.c)
    (has : ∀ i, i < m.weights.length + 1 → ∃ a, acts[i]? = some a ∧
      a.r = dims i ∧ a.c = y.c)
    (hyr : y.r = dims m.weights.length) :
    ∃ gws gbs, backward gs y m =
        some { m with grad_weights := some gws, grad_biases := some gbs } ∧
      gws.length = m.weights.length ∧ gbs.length = m.weights.length ∧
      ∀ i, i < m.weights.length → ∃ d ai,
        specDelta gs y m.weights zs acts (m.weights.length - 1 - i) = some d ∧
        acts[i]? = some ai ∧
        gbs[i]? = np_matmul d (np_ones y.c 1) ∧
        gws[i]? = np_matmul d (np_transpose ai) := by
  obtain ⟨aL, haL, haLr, haLc⟩ := has m.weights.length (by omega)
  obtain ⟨zL, hzL, hzLr, hzLc⟩ := hzs (m.weights.length - 1) (by omega)
  obtain ⟨aLm1, haLm1, haLm1r, haLm1c⟩ := has (m.weights.length - 1) (by omega)
  have hzLr' : zL.r = dims m.weights.length := by
    rw [hzLr]; congr 1; omega
  have hyhat : pyGetNeg acts 1 = some aL := by
    simp only [pyGetNeg]
    rw [if_pos (by omega), halen, Nat.add_sub_cancel]
    exact haL
  have hzneg : pyGetNeg zs 1 = some zL := by
    simp only [pyGetNeg]
    rw [if_pos (by omega), hzlen]
    exact hzL
  have haneg : pyGetNeg acts 2 = some aLm1 := by
    simp only [pyGetNeg]
    rw [if_pos (by omega), halen]
    have h2 : m.weights.length + 1 - 2 = m.weights.length - 1 := by omega
    rw [h2]
    exact haLm1
  obtain ⟨E, hE, hEr, hEc⟩ := bcOp_shape (· - ·) aL y
    (by rw [haLr, hyr]; exact bcDim_self _)
    (by rw [haLc]; exact bcDim_self _)
  obtain ⟨delta, hdelta, hdeltar, hdeltac⟩ := bcOp_shape (· * ·) E (g_prime gs zL)
    (by show bcDim E.r zL.r = some (dims m.weights.length);
        rw [hEr, hzLr']; exact bcDim_self _)
    (by show bcDim E.c zL.c = some y.c; rw [hEc, hzLc]; exact bcDim_self _)
  obtain ⟨gb, hgb, -, -⟩ := np_matmul_shape delta (np_ones y.c 1)
    (by show delta.c = y.c; exact hdeltac)
  obtain ⟨gw, hgw, -, -⟩ := np_matmul_shape delta (np_transpose aLm1)
    (by show delta.c = aLm1.c; rw [hdeltac, haLm1c])
  obtain ⟨ts, htsdef⟩ : ∃ ts, ts = (sliceLast2One m.weights).zip
      ((sliceSndLast2Zero zs).zip (sliceThdLast2Zero acts)) := ⟨_, rfl⟩
  have hts_len : ts.length = m.weights.length - 1 := by
    rw [htsdef]
    simp [sliceLast2One, sliceSndLast2Zero, sliceThdLast2Zero,
      List.length_zip, halen, hzlen]
    omega
  have hts : ∀ j, j < m.weights.length - 1 → ∃ W z a,
      ts[j]? = some (W, z, a) ∧
      m.weights[m.weights.length - 1 - j]? = some W ∧
      zs[m.weights.length - 2 - j]? = some z ∧
      acts[m.weights.length - 2 - j]? = some a := by
    intro j hj
    obtain ⟨W, hW, -, -⟩ := hws (m.weights.length - 1 - j) (by omega)
    obtain ⟨z, hz', -, -⟩ := hzs (m.weights.length - 2 - j) (by omega)
    obtain ⟨a, ha', -, -⟩ := has (m.weights.length - 2 - j) (by omega)
    refine ⟨W, z, a, ?_, hW, hz', ha'⟩
    rw [htsdef]
    apply List.getElem?_zip_eq_some.mpr
    refine ⟨?_, List.getElem?_zip_eq_some.mpr ⟨?_, ?_⟩⟩
    · rw [sliceLast2One,
        List.getElem?_reverse (by rw [List.length_drop]; omega),
        List.length_drop, List.getElem?_drop]
      have he1 : 1 + (m.weights.length - 1 - 1 - j) = m.weights.length - 1 - j := by
        omega
      rw [he1]; exact hW
    · rw [sliceSndLast2Zero,
        List.getElem?_reverse (by rw [List.length_dropLast]; omega),
        List.length_dropLast, List.getElem?_dropLast, if_pos (by omega)]
      have he2 : zs.length - 1 - 1 - j = m.weights.length - 2 - j := by omega
      rw [he2]; exact hz'
    · rw [sliceThdLast2Zero,
        List.getElem?_reverse (by rw [List.length_take]; omega),
        List.length_take, List.getElem?_take, if_pos (by omega)]
      have he3 : min (acts.length - 2) acts.length - 1 - j =
          m.weights.length - 2 - j := by omega
      rw [he3]; exact ha'
  obtain ⟨gws', gbs', hloop, hgwl, hgbl, hidx⟩ :=
    bwdLoop_ok gs y.c ts delta (fun j => dims (m.weights.length - j))
      (by simpa using hdeltar) hdeltac
      (fun j hj => by
        rw [hts_len] at hj
        obtain ⟨W, z, a, hts_j, hW, hz', ha'⟩ := hts j hj
        obtain ⟨W2, hW2, hW2r, hW2c⟩ := hws (m.weights.length - 1 - j) (by omega)
        obtain ⟨z2, hz2, hz2r, hz2c⟩ := hzs (m.weights.length - 2 - j) (by omega)
        obtain ⟨a2, ha2, -, ha2c⟩ := has (m.weights.length - 2 - j) (by omega)
        rw [hW2] at hW
        rw [hz2] at hz'
        rw [ha2] at ha'
        obtain rfl := Option.some_inj.mp hW
        obtain rfl := Option.some_inj.mp hz'
        obtain rfl := Option.some_inj.mp ha'
        refine ⟨W2, z2, a2, hts_j, ?_, ?_, ?_, hz2c, ha2c⟩
        · rw [hW2r]; show dims (m.weights.length - 1 - j + 1) = _; congr 1; omega
        · rw [hW2c]; show dims (m.weights.length - 1 - j) = _; congr 1; omega
        · rw [hz2r]; show dims (m.weights.length - 2 - j + 1) = _; congr 1; omega)
  have hbwd : backward gs y m = some { m with
      grad_weights := some ((gw :: gws').reverse),
      grad_biases := some ((gb :: gbs').reverse) } := by
    simp [backward, hact, hyhat, hwin, hzneg, haneg,
      loss_prime, hE, hdelta, hgb, hgw, ← htsdef, hloop]
  have hspec0 : specDelta gs y m.weights zs acts 0 = some delta := by
    have e0 : specDelta gs y m.weights zs acts 0 =
        (acts.getLast?).bind fun aL' => (zs.getLast?).bind fun zL' =>
          (loss_prime aL' y).bind fun E' => bcOp (· * ·) E' (g_prime gs zL') := rfl
    rw [e0, List.getLast?_eq_getElem?, halen, Nat.add_sub_cancel, haL,
      Option.some_bind, List.getLast?_eq_getElem?, hzlen, hzL, Option.some_bind,
      show loss_prime aL y = some E from hE, Option.some_bind]
    exact hdelta
  have hcorr : ∀ k, k ≤ ts.length →
      dseq gs delta ts k = specDelta gs y m.weights zs acts k := by
    intro k
    induction k with
    | zero => intro _; rw [dseq_zero, hspec0]
    | succ k ih =>
        intro hk
        have hk' : k < m.weights.length - 1 := by rw [← hts_len]; omega
        obtain ⟨W, z, a, htsk, hWk, hzk, -⟩ := hts k hk'
        have es : specDelta gs y m.weights zs acts (k + 1) =
            (specDelta gs y m.weights zs acts k).bind fun d =>
              (m.weights[m.weights.length - 1 - k]?).bind fun W' =>
                (zs[m.weights.length - 2 - k]?).bind fun z' =>
                  stepD gs W' z' d := rfl
        rw [dseq_succ, es, ih (by omega)]
        simp [htsk, hWk, hzk]
  refine ⟨(gw :: gws').reverse, (gb :: gbs').reverse, hbwd, ?_, ?_, ?_⟩
  · rw [List.length_reverse, List.length_cons, hgwl, hts_len]; omega
  · rw [List.length_reverse, List.length_cons, hgbl, hts_len]; omega
  · intro i hi
    by_cases hilast : i = m.weights.length - 1
    · subst hilast
      refine ⟨delta, aLm1, ?_, haLm1, ?_, ?_⟩
      · have h0 : m.weights.length - 1 - (m.weights.length - 1) = 0 := by omega
        rw [h0]; exact hspec0
      · rw [List.getElem?_reverse
          (by rw [List.length_cons, hgbl, hts_len]; omega)]
        have hidx0 : (gb :: gbs').length - 1 - (m.weights.length - 1) = 0 := by
          rw [List.length_cons, hgbl, hts_len]; omega
        rw [hidx0]
        simp [hgb]
      · rw [List.getElem?_reverse
          (by rw [List.length_cons, hgwl, hts_len]; omega)]
        have hidx0 : (gw :: gws').length - 1 - (m.weights.length - 1) = 0 := by
          rw [List.length_cons, hgwl, hts_len]; omega
        rw [hidx0]
        simp [hgw]
    · have hjlt : m.weights.length - 2 - i < ts.length := by rw [hts_len]; omega
      obtain ⟨d, W', z', a', q0, q1, -, -, q4, q5⟩ :=
        hidx (m.weights.length - 2 - i) hjlt
      obtain ⟨W3, z3, a3, q0', -, -, qa3⟩ :=
        hts (m.weights.length - 2 - i) (by omega)
      rw [q0'] at q0
      have hpair := Option.some_inj.mp q0
      rw [Prod.mk.injEq, Prod.mk.injEq] at hpair
      obtain ⟨rfl, rfl, rfl⟩ := hpair
      have hai : acts[i]? = some a3 := by
        have hidx1 : m.weights.length - 2 - (m.weights.length - 2 - i) = i := by
          omega
        rw [hidx1] at qa3; exact qa3
      refine ⟨d, a3, ?_, hai, ?_, ?_⟩
      · have hj1 : m.weights.length - 1 - i = (m.weights.length - 2 - i) + 1 := by
          omega
        rw [hj1, ← hcorr _ (by rw [hts_len]; omega)]
        exact q1
      · rw [List.getElem?_reverse
          (by rw [List.length_cons, hgbl, hts_len]; omega)]
        have hidx2 : (gb :: gbs').length - 1 - i = (m.weights.length - 2 - i) + 1 := by
          rw [List.length_cons, hgbl, hts_len]; omega
        rw [hidx2, List.getElem?_cons_succ]
        exact q4
      · rw [List.getElem?_reverse
          (by rw [List.length_cons, hgwl, hts_len]; omega)]
        have hidx2 : (gw :: gws').length - 1 - i = (m.weights.length - 2 - i) + 1 := by
          rw [List.length_cons, hgwl, hts_len]; omega
        rw [hidx2, List.getElem?_cons_succ]
        exact q5

/-- Witness for C4: a concrete 2-layer model (all widths 1, batch 1). -/
theorem backward_grads_c4_witness :
    (1 ≤ m4C.weights.length ∧ m4C.activations = some actsC ∧
      m4C.w_inputs = some zsC ∧ actsC.length = m4C.weights.length + 1 ∧
      zsC.length = m4C.weights.length ∧
      (∀ i, i < m4C.weights.length → ∃ W, m4C.weights[i]? = some W ∧
        W.r = 1 ∧ W.c = 1) ∧
      (∀ i, i < m4C.weights.length → ∃ z, zsC[i]? = some z ∧
        z.r = 1 ∧ z.c = yC.c) ∧
      (∀ i, i < m4C.weights.length + 1 → ∃ a, actsC[i]? = some a ∧
        a.r = 1 ∧ a.c = yC.c) ∧
      yC.r = 1) ∧
    (∃ gws gbs, backward gs0 yC m4C =
        some { m4C with grad_weights := some gws, grad_biases := some gbs } ∧
      gws.length = m4C.weights.length ∧ gbs.length = m4C.weights.length ∧
      ∀ i, i < m4C.weights.length → ∃ d ai,
        specDelta gs0 yC m4C.weights zsC actsC
          (m4C.weights.length - 1 - i) = some d ∧
        actsC[i]? = some ai ∧
        gbs[i]? = np_matmul d (np_ones yC.c 1) ∧
        gws[i]? = np_matmul d (np_transpose ai)) :=
  ⟨⟨by decide, rfl, rfl, by decide, by decide,
    (by
      intro i hi
      have hi2 : i < 2 := hi
      match i, hi2 with
      | 0, _ => exact ⟨mat1 1, rfl, rfl, rfl⟩
      | 1, _ => exact ⟨mat1 1, rfl, rfl, rfl⟩
      | n + 2, h => exact absurd h (by omega)),
    (by
      intro i hi
      have hi2 : i < 2 := hi
      match i, hi2 with
      | 0, _ => exact ⟨mat1 0, rfl, rfl, rfl⟩
      | 1, _ => exact ⟨mat1 0, rfl, rfl, rfl⟩
      | n + 2, h => exact absurd h (by omega)),
    (by
      intro i hi
      have hi2 : i < 3 := hi
      match i, hi2 with
      | 0, _ => exact ⟨mat1 0, rfl, rfl, rfl⟩
      | 1, _ => exact ⟨mat1 0, rfl, rfl, rfl⟩
      | 2, _ => exact ⟨mat1 0, rfl, rfl, rfl⟩
      | n + 3, h => exact absurd h (by omega)),
    rfl⟩,
   backward_grads_c4 gs0 yC m4C actsC zsC (fun _ => 1) (by decide) rfl rfl
     (by decide) (by decide)
     (by
       intro i hi
       have hi2 : i < 2 := hi
       match i, hi2 with
       | 0, _ => exact ⟨mat1 1, rfl, rfl, rfl⟩
       | 1, _ => exact ⟨mat1 1, rfl, rfl, rfl⟩
       | n + 2, h => exact absurd h (by omega))
     (by
       intro i hi
       have hi2 : i < 2 := hi
       match i, hi2 with
       | 0, _ => exact ⟨mat1 0, rfl, rfl, rfl⟩
       | 1, _ => exact ⟨mat1 0, rfl, rfl, rfl⟩
       | n + 2, h => exact absurd h (by omega))
     (by
       intro i hi
       have hi2 : i < 3 := hi
       match i, hi2 with
       | 0, _ => exact ⟨mat1 0, rfl, rfl, rfl⟩
       | 1, _ => exact ⟨mat1 0, rfl, rfl, rfl⟩
       | 2, _ => exact ⟨mat1 0, rfl, rfl, rfl⟩
       | n + 3, h => exact absurd h (by omega))
     rfl⟩

end DFS
